import Mathlib

/-!
Verification of the marker-based section splitters and the Bedrock call
adapter of `model13p.py`.

Texts are modelled as `List Char`; Python `str.find` / slicing / `strip`
are modelled by `findIdx`, `slice` and `stripChars` below; Python dicts
(string keys) are modelled as association lists built with `dinsert`
(assign) and read with `dlookup` (`d[k]` / `k in d`).
-/

namespace Model13p

/-- Python `str.find(pat)` on `text`: index of the first occurrence of
`pat` in `text`, `none` when absent (Python returns `-1`). -/
def findIdx (pat : List Char) : List Char → Option Nat
  | [] => if pat.isEmpty then some 0 else none
  | c :: ts =>
    if pat.isPrefixOf (c :: ts) then some 0
    else (findIdx pat ts).map (· + 1)

/-- Python `pat in text`. -/
def occursIn (pat text : List Char) : Bool := (findIdx pat text).isSome

/-- Python `text[s:e]` for nonnegative bounds (clamping included). -/
def slice (text : List Char) (s e : Nat) : List Char := (text.take e).drop s

/-- Whitespace characters removed by Python `str.strip()` (ASCII part). -/
def isPySpace (c : Char) : Bool :=
  c == ' ' || c == '\t' || c == '\n' || c == '\r' || c == '\x0b' || c == '\x0c'

/-- Python `str.strip()`. -/
def stripChars (l : List Char) : List Char :=
  ((l.dropWhile isPySpace).reverse.dropWhile isPySpace).reverse

/-- Python `min` over a nonempty list of naturals (`0` on `[]`, unused). -/
def minNat : List Nat → Nat
  | [] => 0
  | [a] => a
  | a :: rest => min a (minNat rest)

/-- Python dict assignment `d[k] = v`: replace the binding of `k` in place
if present, else append. -/
def dinsert {α : Type} : List (String × α) → String → α → List (String × α)
  | [], k, v => [(k, v)]
  | (k2, v2) :: rest, k, v =>
    if k2 = k then (k, v) :: rest else (k2, v2) :: dinsert rest k v

/-- Python dict read `d.get(k)` / membership `k in d`. -/
def dlookup {α : Type} : List (String × α) → String → Option α
  | [], _ => none
  | (k2, v) :: rest, k => if k2 = k then some v else dlookup rest k

/-! ### Corrections splitter (`analyze_user_text_enhanced`, lines 329-354)

The source builds `found_markers = [(pos, marker, key)]` from the first
occurrence of each marker, sorts it by position (Python's stable
`list.sort(key=pos)`, modelled by a stable insertion sort), slices the
text between consecutive found markers, and finally fills every missing
key with a fallback string. -/

/-- `found_markers`: `(pos, marker, key)` for each marker that occurs. -/
def found_markers (text : List Char) (markers : List (List Char × String)) :
    List (Nat × List Char × String) :=
  markers.filterMap (fun mk => (findIdx mk.1 text).map (fun p => (p, mk.1, mk.2)))

/-- Insert one entry into a position-sorted list, before the first entry
with a position not smaller (stable). -/
def insertPos (e : Nat × List Char × String) :
    List (Nat × List Char × String) → List (Nat × List Char × String)
  | [] => [e]
  | f :: rest => if e.1 ≤ f.1 then e :: f :: rest else f :: insertPos e rest

/-- `found_markers.sort(key=lambda x: x[0])`: stable sort by position. -/
def sortFound : List (Nat × List Char × String) → List (Nat × List Char × String)
  | [] => []
  | e :: rest => insertPos e (sortFound rest)

/-- The extraction loop: for the `i`-th found marker the slice runs from
the end of the marker to the next found position (or end of text). -/
def extractLoop (text : List Char) :
    List (Nat × List Char × String) → List (String × List Char) →
    List (String × List Char)
  | [], acc => acc
  | (p, m, k) :: rest, acc =>
    let start_idx := p + m.length
    let v := match rest with
      | [] => stripChars (text.drop start_idx)
      | (p2, _, _) :: _ => stripChars (slice text start_idx p2)
    extractLoop text rest (dinsert acc k v)

/-- The fill loop: every key not yet bound receives the fallback. -/
def fillMissing (fb : List Char) :
    List (List Char × String) → List (String × List Char) →
    List (String × List Char)
  | [], d => d
  | mk :: rest, d =>
    fillMissing fb rest (if (dlookup d mk.2).isSome then d else dinsert d mk.2 fb)

/-- The whole corrections-style splitter of `analyze_user_text_enhanced`. -/
def splitMarkedSections (text : List Char) (markers : List (List Char × String))
    (fb : List Char) : List (String × List Char) :=
  fillMissing fb markers (extractLoop text (sortFound (found_markers text markers)) [])

/-- `sections_to_extract` of `analyze_user_text_enhanced`. -/
def sections_to_extract : List (List Char × String) :=
  [("SPELLING CORRECTIONS:".data, "spelling"),
   ("GRAMMAR CORRECTIONS:".data, "grammar"),
   ("COHERENCE CORRECTIONS:".data, "coherence"),
   ("STYLE CORRECTIONS:".data, "style"),
   ("ORDER CORRECTIONS:".data, "order"),
   ("PROPOSED CORRECTION:".data, "proposed")]

/-- The corrections parsing step of `analyze_user_text_enhanced`. -/
def parse_corrections (corrections : List Char) : List (String × List Char) :=
  splitMarkedSections corrections sections_to_extract "No corrections needed.".data

/-! ### Evaluation splitter (`parse_evaluation_results`)

Two variants exist in the source: the tab-4 one (lines 584-613) binds
absent keys to a fallback string, the tab-6 one (lines 1323-1350) has no
`else` branch and leaves absent keys out of the dict.  Both share the
per-marker extraction: the slice for a present marker ends at the
smallest first occurrence of a *different* present marker that starts
strictly after the end of the current marker. -/

/-- `section_markers` of both `parse_evaluation_results` definitions. -/
def section_markers : List (List Char × String) :=
  [("SPELLING EVALUATION:".data, "spelling"),
   ("GRAMMAR EVALUATION:".data, "grammar"),
   ("STYLE EVALUATION:".data, "style"),
   ("COHERENCE EVALUATION:".data, "coherence"),
   ("OVERALL EVALUATION:".data, "overall")]

/-- The value computed for one present marker by `parse_evaluation_results`
(lines 598-609): `start_idx`, `next_markers`, `next_indices`, then a slice
to `min(next_indices)` or to end of text. -/
def evalValue (text : List Char) (L : List (List Char × String)) (m : List Char) :
    List Char :=
  let start_idx := (findIdx m text).getD 0 + m.length
  let next_markers := (L.map Prod.fst).filter (fun m2 => !(m2 == m) && occursIn m2 text)
  if next_markers.isEmpty then stripChars (text.drop start_idx)
  else
    let next_indices :=
      (next_markers.map (fun m2 => (findIdx m2 text).getD 0)).filter
        (fun q => decide (start_idx < q))
    if next_indices.isEmpty then stripChars (text.drop start_idx)
    else stripChars (slice text start_idx (minNat next_indices))

/-- The `for marker, key in section_markers` loop of
`parse_evaluation_results`; `fb?` is the fallback for absent markers
(`none` for the tab-6 variant, which has no `else` branch). -/
def parseEvalLoop (text : List Char) (all : List (List Char × String))
    (fb? : Option (List Char)) :
    List (List Char × String) → List (String × List Char) →
    List (String × List Char)
  | [], d => d
  | mk :: rest, d =>
    parseEvalLoop text all fb? rest
      (if occursIn mk.1 text then dinsert d mk.2 (evalValue text all mk.1)
       else match fb? with
            | some fb => dinsert d mk.2 fb
            | none => d)

/-- Generic form of `parse_evaluation_results` over a marker list. -/
def parse_eval_core (text : List Char) (L : List (List Char × String))
    (fb? : Option (List Char)) : List (String × List Char) :=
  parseEvalLoop text L fb? L []

/-- `parse_evaluation_results` of tab 4 (lines 584-613): absent markers
are bound to a fallback string. -/
def parse_evaluation_results (text : List Char) : List (String × List Char) :=
  parse_eval_core text section_markers (some "No evaluation available for this section.".data)

/-- `parse_evaluation_results` of tab 6 (lines 1323-1350): no `else`
branch, absent markers are left out of the dict. -/
def parse_evaluation_results_tab6 (text : List Char) : List (String × List Char) :=
  parse_eval_core text section_markers none

/-! Spec-side notions used by the claims. -/

/-- The start of the next found marker after position `p`, in ascending
first-occurrence order, or end of text when there is none (spec 4.1,
step 3). -/
def nextFoundPos (text : List Char) (markers : List (List Char × String))
    (p : Nat) : Nat :=
  match ((found_markers text markers).map (fun e => e.1)).filter
      (fun q => decide (p < q)) with
  | [] => text.length
  | q :: rest => minNat (q :: rest)

/-- The slice bound actually used by `parse_evaluation_results` for a
marker `m` whose content starts at `s`: the smallest first occurrence of
a different present marker strictly after `s`, or end of text. -/
def evalBoundFrom (text : List Char) (L : List (List Char × String))
    (m : List Char) (s : Nat) : Nat :=
  match ((L.map Prod.fst).filter (fun m2 => !(m2 == m) && occursIn m2 text)).map
      (fun m2 => (findIdx m2 text).getD 0) |>.filter (fun q => decide (s < q)) with
  | [] => text.length
  | q :: rest => minNat (q :: rest)

/-! ### Bedrock call adapter (`call_bedrock_model`, lines 183-254)

JSON values are modelled by `JVal` (numbers as rationals, so the literal
`0.7` of the source becomes `7/10`).  The external
`bedrock_runtime.invoke_model` + `json.loads` pipeline is an oracle
`invoke : JVal → Except String JVal` mapping the serialized request body
to a parsed response or a raised exception; everything around it is
translated from the source. -/

/-- A JSON value. -/
inductive JVal : Type where
  | jstr : String → JVal
  | jnum : Rat → JVal
  | jbool : Bool → JVal
  | jnull : JVal
  | jarr : List JVal → JVal
  | jobj : List (String × JVal) → JVal

mutual
/-- Serializer standing in for `json.dumps` (used only inside the
"format unknown" debug message; its exact whitespace is not modelled). -/
def jdump : JVal → String
  | .jstr s => "\"" ++ s ++ "\""
  | .jnum q => toString q
  | .jbool b => if b then "true" else "false"
  | .jnull => "null"
  | .jarr xs => "[" ++ jdumpArr xs ++ "]"
  | .jobj fs => "\x7b" ++ jdumpObj fs ++ "\x7d"

def jdumpArr : List JVal → String
  | [] => ""
  | [x] => jdump x
  | x :: y :: rest => jdump x ++ ", " ++ jdumpArr (y :: rest)

def jdumpObj : List (String × JVal) → String
  | [] => ""
  | [(k, v)] => "\"" ++ k ++ "\": " ++ jdump v
  | (k, v) :: f :: rest => "\"" ++ k ++ "\": " ++ jdump v ++ ", " ++ jdumpObj (f :: rest)
end

/-- Python `str.lower()` (ASCII part). -/
def toLowerChars (s : List Char) : List Char := s.map Char.toLower

/-- `fam in model_id.lower()`: the case-insensitive family test. -/
def hasFamily (model_id : String) (fam : String) : Bool :=
  occursIn fam.data (toLowerChars model_id.data)

/-- Warning returned when the runtime client or the model id is missing
(line 186). -/
def bedrockWarning : String :=
  "⚠️ Bedrock runtime client not available or no model selected. Please configure AWS properly."

/-- The `except Exception` handler message (line 254). -/
def modelErrorMsg (e : String) : String :=
  "Error calling model: " ++ e ++
    "\n\nTroubleshooting tips:\n1. Check if you have access to the selected model\n2. Verify your AWS credentials have proper permissions\n3. Make sure Bedrock is available in your region"

/-- The request body built per model family (lines 190-225). -/
def buildBody (prompt : String) (model_id : String) : JVal :=
  if hasFamily model_id "claude" then
    .jobj [("anthropic_version", .jstr "bedrock-2023-05-31"),
           ("max_tokens", .jnum 2000),
           ("messages", .jarr [.jobj [("role", .jstr "user"),
                                      ("content", .jstr prompt)]])]
  else if hasFamily model_id "titan" then
    .jobj [("inputText", .jstr prompt),
           ("textGenerationConfig",
            .jobj [("maxTokenCount", .jnum 2000),
                   ("temperature", .jnum (7/10)),
                   ("topP", .jnum (9/10))])]
  else if hasFamily model_id "llama" then
    .jobj [("prompt", .jstr prompt),
           ("max_gen_len", .jnum 2000),
           ("temperature", .jnum (7/10)),
           ("top_p", .jnum (9/10))]
  else
    .jobj [("prompt", .jstr prompt),
           ("max_tokens", .jnum 2000)]

/-- Python `obj.get(k, dflt)`; on a non-dict the attribute is missing and
an `AttributeError` is raised. -/
def jget (v : JVal) (k : String) (dflt : JVal) : Except String JVal :=
  match v with
  | .jobj fields => .ok ((dlookup fields k).getD dflt)
  | _ => .error "AttributeError: object has no attribute get"

/-- Python `x[0]`.  On an empty list this raises `IndexError`; on the
other non-list JSON values the Python chain also ends in a raised
exception (`KeyError`/`TypeError`, or an `AttributeError` one step later
for a nonempty string), so those are collapsed into an error here. -/
def jindex0 : JVal → Except String JVal
  | .jarr (x :: _) => .ok x
  | .jarr [] => .error "IndexError: list index out of range"
  | _ => .error "TypeError: object is not subscriptable"

/-- The response-field extraction per model family (lines 236-251). -/
def extractResponse (model_id : String) (rb : JVal) : Except String JVal :=
  if hasFamily model_id "claude" then
    match jget rb "content" (.jarr [.jobj []]) with
    | .error e => .error e
    | .ok c =>
      match jindex0 c with
      | .error e => .error e
      | .ok el => jget el "text" (.jstr "No content returned")
  else if hasFamily model_id "titan" then
    match jget rb "results" (.jarr [.jobj []]) with
    | .error e => .error e
    | .ok c =>
      match jindex0 c with
      | .error e => .error e
      | .ok el => jget el "outputText" (.jstr "No content returned")
  else
    match rb with
    | .jobj fields =>
      match dlookup fields "generated_text" with
      | some v => .ok v
      | none =>
        match dlookup fields "completion" with
        | some v => .ok v
        | none => .ok (.jstr ("Response received but format unknown: " ++ jdump rb))
    | .jstr s =>
      -- Python `"generated_text" in response_body` is a substring test on
      -- a string body, and indexing a string with a string then raises.
      if occursIn "generated_text".data s.data || occursIn "completion".data s.data then
        .error "TypeError: string indices must be integers"
      else .ok (.jstr ("Response received but format unknown: " ++ jdump (.jstr s)))
    | .jarr xs => .ok (.jstr ("Response received but format unknown: " ++ jdump (.jarr xs)))
    | _ => .error "TypeError: argument is not iterable"

/-- `call_bedrock_model` (lines 183-254).  `available` models whether the
`bedrock_runtime` client exists; `model_id = none`/`some ""` are the falsy
model ids; `invoke` is the external request/parse pipeline, whose raised
exceptions are `Except.error`.  The Python function returns whatever value
the chosen extraction produced, so the result type is `JVal` (a string
result is a `jstr`). -/
def call_bedrock_model (available : Bool) (prompt : String)
    (model_id : Option String) (invoke : JVal → Except String JVal) : JVal :=
  if !available || model_id.getD "" = "" then .jstr bedrockWarning
  else
    match invoke (buildBody prompt (model_id.getD "")) with
    | .error e => .jstr (modelErrorMsg e)
    | .ok rb =>
      match extractResponse (model_id.getD "") rb with
      | .ok v => v
      | .error e => .jstr (modelErrorMsg e)

/-- Whether a JSON value is a string. -/
def isJStr : JVal → Bool
  | .jstr _ => true
  | _ => false

/-- The field list of a JSON object (`[]` otherwise). -/
def bodyFields : JVal → List (String × JVal)
  | .jobj fields => fields
  | _ => []

/-! ### Auxiliary definitions used by the lemmas and claim statements. -/

/-- Position order on found-marker entries. -/
def posLe (a b : Nat × List Char × String) : Prop := a.1 ≤ b.1

/-- The slice value the extraction loop assigns to the entry whose
successors in the sorted found list are `rest`. -/
def nextVal (text : List Char) (p : Nat) (m : List Char) :
    List (Nat × List Char × String) → List Char
  | [] => stripChars (text.drop (p + m.length))
  | (p2, _, _) :: _ => stripChars (slice text (p + m.length) p2)

/-! ### Dictionary lemmas -/

theorem dlookup_dinsert_self {α : Type} (d : List (String × α)) (k : String) (v : α) :
    dlookup (dinsert d k v) k = some v := by
  induction d with
  | nil => simp [dinsert, dlookup]
  | cons hd tl ih =>
    obtain ⟨k2, v2⟩ := hd
    by_cases h : k2 = k
    · simp [dinsert, h, dlookup]
    · simp [dinsert, h, dlookup, ih]

theorem dlookup_dinsert_ne {α : Type} (d : List (String × α)) {q k : String} (v : α)
    (h : q ≠ k) : dlookup (dinsert d k v) q = dlookup d q := by
  induction d with
  | nil => simp [dinsert, dlookup, Ne.symm h]
  | cons hd tl ih =>
    obtain ⟨k3, v3⟩ := hd
    by_cases h3 : k3 = k
    · subst h3
      simp [dinsert, dlookup, Ne.symm h]
    · simp [dinsert, h3, dlookup, ih]

theorem mem_dinsert {α : Type} {x : String × α} {k : String} {v : α} :
    ∀ (d : List (String × α)), x ∈ dinsert d k v → x = (k, v) ∨ x ∈ d := by
  intro d
  induction d with
  | nil =>
    intro h
    simp only [dinsert, List.mem_singleton] at h
    exact Or.inl h
  | cons hd tl ih =>
    obtain ⟨k3, v3⟩ := hd
    intro h
    by_cases h3 : k3 = k
    · simp only [dinsert, if_pos h3] at h
      rcases List.mem_cons.mp h with h4 | h4
      · exact Or.inl h4
      · exact Or.inr (List.mem_cons_of_mem _ h4)
    · simp only [dinsert, if_neg h3] at h
      rcases List.mem_cons.mp h with h4 | h4
      · exact Or.inr (by simp [h4])
      · rcases ih h4 with h5 | h5
        · exact Or.inl h5
        · exact Or.inr (List.mem_cons_of_mem _ h5)

/-! ### Found-marker and sorting lemmas -/

theorem mem_found_markers {text : List Char} {markers : List (List Char × String)}
    {p : Nat} {m : List Char} {k : String} :
    (p, m, k) ∈ found_markers text markers ↔
      ((m, k) ∈ markers ∧ findIdx m text = some p) := by
  unfold found_markers
  rw [List.mem_filterMap]
  constructor
  · rintro ⟨⟨m2, k2⟩, hmem, hmap⟩
    cases hf : findIdx m2 text with
    | none => simp [hf] at hmap
    | some p2 =>
      simp only [hf, Option.map_some', Option.some.injEq, Prod.mk.injEq] at hmap
      obtain ⟨rfl, rfl, rfl⟩ := hmap
      exact ⟨hmem, hf⟩
  · rintro ⟨hmem, hf⟩
    exact ⟨(m, k), hmem, by simp [hf]⟩

theorem foundKeys_sublist (text : List Char) :
    ∀ markers : List (List Char × String),
      ((found_markers text markers).map (fun e => e.2.2)).Sublist
        (markers.map Prod.snd) := by
  intro markers
  induction markers with
  | nil => simp [found_markers]
  | cons mk rest ih =>
    unfold found_markers at ih ⊢
    rw [List.filterMap_cons]
    cases hf : findIdx mk.1 text with
    | none => simpa [hf] using List.Sublist.cons mk.2 ih
    | some p => simpa [hf] using List.Sublist.cons₂ mk.2 ih

theorem insertPos_perm (e : Nat × List Char × String)
    (l : List (Nat × List Char × String)) : (insertPos e l).Perm (e :: l) := by
  induction l with
  | nil => simp [insertPos]
  | cons f rest ih =>
    by_cases h : e.1 ≤ f.1
    · simp [insertPos, h]
    · rw [insertPos, if_neg h]
      exact (ih.cons f).trans (List.Perm.swap e f rest)

theorem sortFound_perm (l : List (Nat × List Char × String)) :
    (sortFound l).Perm l := by
  induction l with
  | nil => simp [sortFound]
  | cons e rest ih =>
    rw [sortFound]
    exact (insertPos_perm e (sortFound rest)).trans (ih.cons e)

theorem pairwise_insertPos {e : Nat × List Char × String}
    {l : List (Nat × List Char × String)} (h : l.Pairwise posLe) :
    (insertPos e l).Pairwise posLe := by
  induction l with
  | nil => simp [insertPos, posLe]
  | cons f rest ih =>
    rcases List.pairwise_cons.mp h with ⟨hf, hrest⟩
    by_cases hef : e.1 ≤ f.1
    · rw [insertPos, if_pos hef]
      refine List.Pairwise.cons ?_ h
      intro b hb
      rcases List.mem_cons.mp hb with rfl | hb2
      · exact hef
      · exact Nat.le_trans hef (hf b hb2)
    · rw [insertPos, if_neg hef]
      refine List.Pairwise.cons ?_ (ih hrest)
      intro b hb
      have hb3 := (insertPos_perm e rest).mem_iff.mp hb
      rcases List.mem_cons.mp hb3 with rfl | hb2
      · exact Nat.le_of_not_le hef
      · exact hf b hb2

theorem pairwise_sortFound (l : List (Nat × List Char × String)) :
    (sortFound l).Pairwise posLe := by
  induction l with
  | nil => simp [sortFound]
  | cons e rest ih =>
    rw [sortFound]
    exact pairwise_insertPos ih

theorem eq_of_sorted_perm :
    ∀ {l1 l2 : List (Nat × List Char × String)}, l1.Perm l2 →
      l1.Pairwise posLe → l2.Pairwise posLe →
      (l1.map (fun e => e.1)).Nodup → l1 = l2 := by
  intro l1
  induction l1 with
  | nil =>
    intro l2 hp _ _ _
    exact (hp.symm.eq_nil).symm
  | cons a t1 ih =>
    intro l2 hp hs1 hs2 hnd
    cases l2 with
    | nil => simpa using hp.eq_nil
    | cons b t2 =>
      rw [List.map_cons] at hnd
      have hab : a = b := by
        have hain : a ∈ b :: t2 := hp.mem_iff.mp (by simp)
        have hbin : b ∈ a :: t1 := hp.mem_iff.mpr (by simp)
        rcases List.mem_cons.mp hain with h | hat2
        · exact h
        rcases List.mem_cons.mp hbin with h | hbt1
        · exact h.symm
        have h1 : posLe a b := (List.pairwise_cons.mp hs1).1 b hbt1
        have h2 : posLe b a := (List.pairwise_cons.mp hs2).1 a hat2
        have heq : a.1 = b.1 := Nat.le_antisymm h1 h2
        have hnot : a.1 ∉ t1.map (fun e => e.1) := (List.nodup_cons.mp hnd).1
        exact absurd (heq ▸ List.mem_map_of_mem _ hbt1) hnot
      subst hab
      have hpt : t1.Perm t2 := hp.cons_inv
      have := ih hpt (List.pairwise_cons.mp hs1).2 (List.pairwise_cons.mp hs2).2
        (List.nodup_cons.mp hnd).2
      rw [this]

/-! ### `minNat` lemmas -/

theorem minNat_le : ∀ (l : List Nat), ∀ x ∈ l, minNat l ≤ x := by
  intro l
  induction l with
  | nil => intro x hx; simp at hx
  | cons a rest ih =>
    intro x hx
    cases rest with
    | nil =>
      rcases List.mem_cons.mp hx with rfl | hx2
      · exact Nat.le_refl _
      · simp at hx2
    | cons b rest2 =>
      have hm : minNat (a :: b :: rest2) = min a (minNat (b :: rest2)) := rfl
      rcases List.mem_cons.mp hx with rfl | hx2
      · rw [hm]; exact Nat.min_le_left _ _
      · rw [hm]; exact Nat.le_trans (Nat.min_le_right _ _) (ih x hx2)

theorem minNat_mem : ∀ {l : List Nat}, l ≠ [] → minNat l ∈ l := by
  intro l
  induction l with
  | nil => intro h; exact absurd rfl h
  | cons a rest ih =>
    intro _
    cases rest with
    | nil => simp [minNat]
    | cons b rest2 =>
      have hm : minNat (a :: b :: rest2) = min a (minNat (b :: rest2)) := rfl
      rw [hm, Nat.min_def]
      split
      · simp
      · exact List.mem_cons_of_mem a (ih (by simp))

theorem minNat_eq_of_le {l : List Nat} {a : Nat} (ha : a ∈ l)
    (hle : ∀ x ∈ l, a ≤ x) : minNat l = a :=
  Nat.le_antisymm (minNat_le l a ha)
    (hle _ (minNat_mem (List.ne_nil_of_mem ha)))

theorem minNat_perm {l l2 : List Nat} (h : l.Perm l2) (hne : l ≠ []) :
    minNat l = minNat l2 := by
  have h2ne : l2 ≠ [] := by
    intro hl2
    subst hl2
    exact hne h.eq_nil
  exact Nat.le_antisymm
    (minNat_le l _ (h.mem_iff.mpr (minNat_mem h2ne)))
    (minNat_le l2 _ (h.mem_iff.mp (minNat_mem hne)))

/-! ### Filter helpers -/

theorem filter_eq_nil_of {l : List Nat} {f : Nat → Bool}
    (h : ∀ x ∈ l, f x = false) : l.filter f = [] := by
  induction l with
  | nil => rfl
  | cons a rest ih =>
    have ha := h a (by simp)
    have hr : ∀ x ∈ rest, f x = false := fun x hx => h x (by simp [hx])
    simp [List.filter_cons, ha, ih hr]

theorem filter_eq_self_of {l : List Nat} {f : Nat → Bool}
    (h : ∀ x ∈ l, f x = true) : l.filter f = l := by
  induction l with
  | nil => rfl
  | cons a rest ih =>
    have ha := h a (by simp)
    have hr : ∀ x ∈ rest, f x = true := fun x hx => h x (by simp [hx])
    simp [List.filter_cons, ha, ih hr]

theorem filter_gt_split {S1 S2 : List (Nat × List Char × String)}
    {p : Nat} {m : List Char} {k : String}
    (hs : (S1 ++ (p, m, k) :: S2).Pairwise posLe)
    (hn : ((S1 ++ (p, m, k) :: S2).map (fun e => e.1)).Nodup) :
    ((S1 ++ (p, m, k) :: S2).map (fun e => e.1)).filter (fun q => decide (p < q))
      = S2.map (fun e => e.1) := by
  rw [List.map_append, List.map_cons, List.filter_append]
  have h1 : (S1.map (fun e => e.1)).filter (fun q => decide (p < q)) = [] := by
    apply filter_eq_nil_of
    intro x hx
    obtain ⟨e, he, rfl⟩ := List.mem_map.mp hx
    have hle : posLe e (p, m, k) :=
      (List.pairwise_append.mp hs).2.2 e he (p, m, k) (by simp)
    simp only [decide_eq_false_iff_not]
    exact Nat.not_lt.mpr hle
  have hp2 : p ∉ S2.map (fun e => e.1) := by
    rw [List.map_append, List.map_cons] at hn
    exact (List.nodup_cons.mp (List.nodup_append.mp hn).2.1).1
  have h3 : (S2.map (fun e => e.1)).filter (fun q => decide (p < q))
      = S2.map (fun e => e.1) := by
    apply filter_eq_self_of
    intro x hx
    obtain ⟨e, he, rfl⟩ := List.mem_map.mp hx
    have hle : posLe (p, m, k) e :=
      (List.pairwise_cons.mp (List.pairwise_append.mp hs).2.1).1 e he
    have hne : e.1 ≠ p := fun hh => hp2 (hh ▸ List.mem_map_of_mem _ he)
    simp only [decide_eq_true_eq]
    exact Nat.lt_of_le_of_ne hle (Ne.symm hne)
  rw [h1, List.nil_append, List.filter_cons]
  simp [h3]

/-! ### Extraction-loop lookup lemmas -/

theorem extractLoop_cons (text : List Char) (p : Nat) (m : List Char) (k : String)
    (rest : List (Nat × List Char × String)) (acc : List (String × List Char)) :
    extractLoop text ((p, m, k) :: rest) acc
      = extractLoop text rest (dinsert acc k (nextVal text p m rest)) := by
  cases rest with
  | nil => rfl
  | cons e rest2 =>
    obtain ⟨p2, m2, k2⟩ := e
    rfl

theorem dlookup_extractLoop_notmem {text : List Char} {k : String} :
    ∀ (S : List (Nat × List Char × String)) (acc : List (String × List Char)),
      k ∉ S.map (fun e => e.2.2) →
      dlookup (extractLoop text S acc) k = dlookup acc k := by
  intro S
  induction S with
  | nil => intro acc _; rfl
  | cons e rest ih =>
    intro acc h
    obtain ⟨p, m, k2⟩ := e
    rw [List.map_cons, List.mem_cons] at h
    push_neg at h
    rw [extractLoop_cons, ih _ h.2, dlookup_dinsert_ne _ _ h.1]

theorem dlookup_extractLoop_split {text : List Char} :
    ∀ (S1 : List (Nat × List Char × String)) (p : Nat) (m : List Char) (k : String)
      (S2 : List (Nat × List Char × String)) (acc : List (String × List Char)),
      ((S1 ++ (p, m, k) :: S2).map (fun e => e.2.2)).Nodup →
      dlookup (extractLoop text (S1 ++ (p, m, k) :: S2) acc) k
        = some (nextVal text p m S2) := by
  intro S1
  induction S1 with
  | nil =>
    intro p m k S2 acc hnd
    rw [List.nil_append] at hnd ⊢
    rw [extractLoop_cons]
    have hk : k ∉ S2.map (fun e => e.2.2) := by
      rw [List.map_cons] at hnd
      exact (List.nodup_cons.mp hnd).1
    rw [dlookup_extractLoop_notmem _ _ hk, dlookup_dinsert_self]
  | cons e S1x ih =>
    intro p m k S2 acc hnd
    obtain ⟨p2, m2, k2⟩ := e
    rw [List.cons_append, extractLoop_cons]
    apply ih
    rw [List.cons_append, List.map_cons] at hnd
    exact (List.nodup_cons.mp hnd).2

/-! ### Fill-loop lookup lemma -/

theorem dlookup_fillMissing {fb : List Char} {k : String} :
    ∀ (L : List (List Char × String)) (d : List (String × List Char)),
      dlookup (fillMissing fb L d) k
        = match dlookup d k with
          | some v => some v
          | none => if k ∈ L.map Prod.snd then some fb else none := by
  intro L
  induction L with
  | nil =>
    intro d
    cases h : dlookup d k <;> simp [fillMissing, h]
  | cons mk rest ih =>
    intro d
    have hstep : fillMissing fb (mk :: rest) d
        = fillMissing fb rest
            (if (dlookup d mk.2).isSome then d else dinsert d mk.2 fb) := rfl
    rw [hstep, ih]
    by_cases hk : k = mk.2
    · cases h : dlookup d mk.2 with
      | some v => simp [hk, h]
      | none => simp [hk, h, dlookup_dinsert_self, List.map_cons, List.mem_cons]
    · have hd2 : dlookup (if (dlookup d mk.2).isSome then d else dinsert d mk.2 fb) k
          = dlookup d k := by
        split
        · rfl
        · exact dlookup_dinsert_ne _ _ hk
      rw [hd2]
      cases h : dlookup d k with
      | some v => simp
      | none =>
        by_cases hmem : k ∈ List.map Prod.snd rest <;>
          simp [List.map_cons, List.mem_cons, hk, hmem]

/-! ### The corrections-splitter lookup characterization -/

theorem nextFoundPos_perm_nil {text : List Char} {markers : List (List Char × String)}
    {p : Nat}
    (h : (((found_markers text markers).map (fun e => e.1)).filter
        (fun q => decide (p < q))).Perm []) :
    nextFoundPos text markers p = text.length := by
  unfold nextFoundPos
  rw [h.eq_nil]

theorem nextFoundPos_perm_cons {text : List Char} {markers : List (List Char × String)}
    {p q : Nat} {rest : List Nat}
    (h : (((found_markers text markers).map (fun e => e.1)).filter
        (fun q => decide (p < q))).Perm (q :: rest)) :
    nextFoundPos text markers p = minNat (q :: rest) := by
  unfold nextFoundPos
  cases hf : (((found_markers text markers).map (fun e => e.1)).filter
      (fun q => decide (p < q))) with
  | nil =>
    rw [hf] at h
    exact absurd h.symm.eq_nil (by simp)
  | cons a b =>
    rw [hf] at h
    exact minNat_perm h (by simp)

theorem split_lookup_found (text : List Char) (markers : List (List Char × String))
    (fb : List Char) (m : List Char) (k : String) (p : Nat)
    (hkeys : (markers.map Prod.snd).Nodup)
    (hpos : ((found_markers text markers).map (fun e => e.1)).Nodup)
    (hm : (m, k) ∈ markers) (hf : findIdx m text = some p) :
    dlookup (splitMarkedSections text markers fb) k
      = some (stripChars (slice text (p + m.length) (nextFoundPos text markers p))) := by
  have hperm : (sortFound (found_markers text markers)).Perm
      (found_markers text markers) := sortFound_perm _
  have hmemS : (p, m, k) ∈ sortFound (found_markers text markers) :=
    hperm.mem_iff.mpr (mem_found_markers.mpr ⟨hm, hf⟩)
  obtain ⟨S1, S2, hsplit⟩ := List.append_of_mem hmemS
  have hSkeys : ((sortFound (found_markers text markers)).map (fun e => e.2.2)).Nodup :=
    (hperm.map _).nodup_iff.mpr ((foundKeys_sublist text markers).nodup hkeys)
  have hSpos : ((sortFound (found_markers text markers)).map (fun e => e.1)).Nodup :=
    (hperm.map _).nodup_iff.mpr hpos
  have hSsorted := pairwise_sortFound (found_markers text markers)
  have hlook : dlookup (extractLoop text (sortFound (found_markers text markers)) []) k
      = some (nextVal text p m S2) := by
    rw [hsplit]
    rw [hsplit] at hSkeys
    exact dlookup_extractLoop_split S1 p m k S2 [] hSkeys
  have hfilter : (((sortFound (found_markers text markers)).map (fun e => e.1)).filter
      (fun q => decide (p < q))) = S2.map (fun e => e.1) := by
    have hs2 := hSsorted
    have hp2 := hSpos
    rw [hsplit] at hs2 hp2
    rw [hsplit]
    exact filter_gt_split hs2 hp2
  have hpermpos : (((found_markers text markers).map (fun e => e.1)).filter
      (fun q => decide (p < q))).Perm (S2.map (fun e => e.1)) := by
    have h1 := (hperm.map (fun e => e.1)).filter (fun q => decide (p < q))
    rw [hfilter] at h1
    exact h1.symm
  have hbound : nextVal text p m S2
      = stripChars (slice text (p + m.length) (nextFoundPos text markers p)) := by
    cases hS2 : S2 with
    | nil =>
      rw [hS2] at hpermpos
      rw [List.map_nil] at hpermpos
      rw [nextFoundPos_perm_nil hpermpos]
      simp [nextVal, slice, List.take_length]
    | cons e2 S2x =>
      obtain ⟨q2, mm2, kk2⟩ := e2
      have hS2sorted : S2.Pairwise posLe := by
        have hs2 := hSsorted
        rw [hsplit] at hs2
        exact (List.pairwise_cons.mp (List.pairwise_append.mp hs2).2.1).2
      rw [hS2] at hpermpos
      simp only [List.map_cons] at hpermpos
      have hminq : minNat (q2 :: S2x.map (fun e => e.1)) = q2 := by
        apply minNat_eq_of_le (by simp)
        intro x hx
        rcases List.mem_cons.mp hx with rfl | hx2
        · exact Nat.le_refl _
        · obtain ⟨e, he, rfl⟩ := List.mem_map.mp hx2
          have hl2 : posLe (q2, mm2, kk2) e := by
            have hss := hS2sorted
            rw [hS2] at hss
            exact (List.pairwise_cons.mp hss).1 e he
          exact hl2
      have hnfp2 : nextFoundPos text markers p = q2 := by
        rw [nextFoundPos_perm_cons hpermpos]
        exact hminq
      rw [hnfp2]
      rfl
  have hdef : splitMarkedSections text markers fb
      = fillMissing fb markers
          (extractLoop text (sortFound (found_markers text markers)) []) := rfl
  rw [hdef, dlookup_fillMissing, hlook]
  exact congrArg some hbound

/-! ### Evaluation-splitter lookup lemmas -/

theorem parseEvalLoop_cons (text : List Char) (all : List (List Char × String))
    (fb? : Option (List Char)) (mk : List Char × String)
    (rest : List (List Char × String)) (d : List (String × List Char)) :
    parseEvalLoop text all fb? (mk :: rest) d
      = parseEvalLoop text all fb? rest
          (if occursIn mk.1 text then dinsert d mk.2 (evalValue text all mk.1)
           else match fb? with
                | some fb => dinsert d mk.2 fb
                | none => d) := rfl

theorem dlookup_parseEvalLoop_notmem {text : List Char}
    {all : List (List Char × String)} {fb? : Option (List Char)} {k : String} :
    ∀ (L : List (List Char × String)) (d : List (String × List Char)),
      k ∉ L.map Prod.snd →
      dlookup (parseEvalLoop text all fb? L d) k = dlookup d k := by
  intro L
  induction L with
  | nil => intro d _; rfl
  | cons mk rest ih =>
    intro d h
    rw [List.map_cons, List.mem_cons] at h
    push_neg at h
    rw [parseEvalLoop_cons, ih _ h.2]
    split
    · exact dlookup_dinsert_ne _ _ h.1
    · cases fb? with
      | some fb => exact dlookup_dinsert_ne _ _ h.1
      | none => rfl

theorem dlookup_parseEvalLoop_present {text : List Char}
    {all : List (List Char × String)} {fb? : Option (List Char)}
    {m : List Char} {k : String} :
    ∀ (L : List (List Char × String)) (d : List (String × List Char)),
      (L.map Prod.snd).Nodup → (m, k) ∈ L → occursIn m text = true →
      dlookup (parseEvalLoop text all fb? L d) k = some (evalValue text all m) := by
  intro L
  induction L with
  | nil => intro d _ hm _; simp at hm
  | cons mk rest ih =>
    intro d hnd hm ho
    rw [List.map_cons] at hnd
    rw [parseEvalLoop_cons]
    rcases List.mem_cons.mp hm with heq | hmem
    · have hk2 : mk.2 = k := by rw [← heq]
      have hm1 : mk.1 = m := by rw [← heq]
      have hknot : k ∉ rest.map Prod.snd := by
        have h0 := (List.nodup_cons.mp hnd).1
        rw [hk2] at h0
        exact h0
      rw [dlookup_parseEvalLoop_notmem rest _ hknot]
      rw [hm1, hk2, if_pos ho, dlookup_dinsert_self]
    · exact ih _ (List.nodup_cons.mp hnd).2 hmem ho

theorem dlookup_parseEvalLoop_absent_some {text : List Char}
    {all : List (List Char × String)} {fb : List Char}
    {m : List Char} {k : String} :
    ∀ (L : List (List Char × String)) (d : List (String × List Char)),
      (L.map Prod.snd).Nodup → (m, k) ∈ L → occursIn m text = false →
      dlookup (parseEvalLoop text all (some fb) L d) k = some fb := by
  intro L
  induction L with
  | nil => intro d _ hm _; simp at hm
  | cons mk rest ih =>
    intro d hnd hm ho
    rw [List.map_cons] at hnd
    rw [parseEvalLoop_cons]
    rcases List.mem_cons.mp hm with heq | hmem
    · have hk2 : mk.2 = k := by rw [← heq]
      have hm1 : mk.1 = m := by rw [← heq]
      have hknot : k ∉ rest.map Prod.snd := by
        have h0 := (List.nodup_cons.mp hnd).1
        rw [hk2] at h0
        exact h0
      rw [dlookup_parseEvalLoop_notmem rest _ hknot]
      rw [hm1, hk2, if_neg (by simp [ho]), dlookup_dinsert_self]
    · exact ih _ (List.nodup_cons.mp hnd).2 hmem ho

theorem dlookup_parseEvalLoop_absent_none {text : List Char}
    {all : List (List Char × String)} {m : List Char} {k : String} :
    ∀ (L : List (List Char × String)) (d : List (String × List Char)),
      (L.map Prod.snd).Nodup → (m, k) ∈ L → occursIn m text = false →
      dlookup (parseEvalLoop text all none L d) k = dlookup d k := by
  intro L
  induction L with
  | nil => intro d _ hm _; simp at hm
  | cons mk rest ih =>
    intro d hnd hm ho
    rw [List.map_cons] at hnd
    rw [parseEvalLoop_cons]
    rcases List.mem_cons.mp hm with heq | hmem
    · have hk2 : mk.2 = k := by rw [← heq]
      have hm1 : mk.1 = m := by rw [← heq]
      have hknot : k ∉ rest.map Prod.snd := by
        have h0 := (List.nodup_cons.mp hnd).1
        rw [hk2] at h0
        exact h0
      rw [dlookup_parseEvalLoop_notmem rest _ hknot]
      rw [hm1, if_neg (by simp [ho])]
    · have hkne : k ≠ mk.2 := by
        intro he
        exact (List.nodup_cons.mp hnd).1 (he ▸ List.mem_map_of_mem Prod.snd hmem)
      have hd2 : dlookup
          (if occursIn mk.1 text then dinsert d mk.2 (evalValue text all mk.1)
           else d) k = dlookup d k := by
        split
        · exact dlookup_dinsert_ne _ _ hkne
        · rfl
      exact (ih _ (List.nodup_cons.mp hnd).2 hmem ho).trans hd2

theorem evalValue_eq_bound (text : List Char) (L : List (List Char × String))
    (m : List Char) :
    evalValue text L m
      = stripChars (slice text ((findIdx m text).getD 0 + m.length)
          (evalBoundFrom text L m ((findIdx m text).getD 0 + m.length))) := by
  cases hnm : (L.map Prod.fst).filter (fun m2 => !(m2 == m) && occursIn m2 text) with
  | nil =>
    simp only [evalValue, evalBoundFrom, hnm]
    simp [slice, List.take_length]
  | cons a b =>
    cases hni : (((a :: b).map (fun m2 => (findIdx m2 text).getD 0)).filter
        (fun q => decide ((findIdx m text).getD 0 + m.length < q))) with
    | nil =>
      simp only [evalValue, evalBoundFrom, hnm, hni]
      simp [slice, List.take_length]
    | cons q rest =>
      simp only [evalValue, evalBoundFrom, hnm, hni]
      simp

theorem eval_lookup_present {text m : List Char} {k : String} {p : Nat}
    (hm : (m, k) ∈ section_markers) (hf : findIdx m text = some p) :
    dlookup (parse_evaluation_results text) k
      = some (stripChars (slice text (p + m.length)
          (evalBoundFrom text section_markers m (p + m.length)))) := by
  have ho : occursIn m text = true := by unfold occursIn; rw [hf]; rfl
  have hnd : (section_markers.map Prod.snd).Nodup := by decide
  have h1 := @dlookup_parseEvalLoop_present text section_markers
    (some "No evaluation available for this section.".data) m k
    section_markers [] hnd hm ho
  have h2 : evalValue text section_markers m
      = stripChars (slice text (p + m.length)
          (evalBoundFrom text section_markers m (p + m.length))) := by
    rw [evalValue_eq_bound]
    simp [hf]
  exact h1.trans (congrArg some h2)

theorem eval_tab6_lookup_present {text m : List Char} {k : String} {p : Nat}
    (hm : (m, k) ∈ section_markers) (hf : findIdx m text = some p) :
    dlookup (parse_evaluation_results_tab6 text) k
      = some (stripChars (slice text (p + m.length)
          (evalBoundFrom text section_markers m (p + m.length)))) := by
  have ho : occursIn m text = true := by unfold occursIn; rw [hf]; rfl
  have hnd : (section_markers.map Prod.snd).Nodup := by decide
  have h1 := @dlookup_parseEvalLoop_present text section_markers
    (none : Option (List Char)) m k section_markers [] hnd hm ho
  have h2 : evalValue text section_markers m
      = stripChars (slice text (p + m.length)
          (evalBoundFrom text section_markers m (p + m.length))) := by
    rw [evalValue_eq_bound]
    simp [hf]
  exact h1.trans (congrArg some h2)

theorem eval_lookup_absent {text m : List Char} {k : String}
    (hm : (m, k) ∈ section_markers) (hf : findIdx m text = none) :
    dlookup (parse_evaluation_results text) k
      = some "No evaluation available for this section.".data := by
  have ho : occursIn m text = false := by unfold occursIn; rw [hf]; rfl
  have hnd : (section_markers.map Prod.snd).Nodup := by decide
  exact @dlookup_parseEvalLoop_absent_some text section_markers
    "No evaluation available for this section.".data m k
    section_markers [] hnd hm ho

theorem eval_tab6_lookup_absent {text m : List Char} {k : String}
    (hm : (m, k) ∈ section_markers) (hf : findIdx m text = none) :
    dlookup (parse_evaluation_results_tab6 text) k = none := by
  have ho : occursIn m text = false := by unfold occursIn; rw [hf]; rfl
  have hnd : (section_markers.map Prod.snd).Nodup := by decide
  exact @dlookup_parseEvalLoop_absent_none text section_markers m k
    section_markers [] hnd hm ho

/-! ### Key-set lemmas -/

theorem mem_extractLoop {text : List Char} {x : String × List Char} :
    ∀ (S : List (Nat × List Char × String)) (acc : List (String × List Char)),
      x ∈ extractLoop text S acc → x.1 ∈ S.map (fun e => e.2.2) ∨ x ∈ acc := by
  intro S
  induction S with
  | nil => intro acc h; exact Or.inr h
  | cons e rest ih =>
    intro acc h
    obtain ⟨p, m, k2⟩ := e
    rw [extractLoop_cons] at h
    rcases ih _ h with h1 | h1
    · exact Or.inl (by rw [List.map_cons]; exact List.mem_cons_of_mem _ h1)
    · rcases mem_dinsert _ h1 with h2 | h2
      · exact Or.inl (by rw [List.map_cons, h2]; simp)
      · exact Or.inr h2

theorem mem_fillMissing {fb : List Char} {x : String × List Char} :
    ∀ (L : List (List Char × String)) (d : List (String × List Char)),
      x ∈ fillMissing fb L d → x.1 ∈ L.map Prod.snd ∨ x ∈ d := by
  intro L
  induction L with
  | nil => intro d h; exact Or.inr h
  | cons mk rest ih =>
    intro d h
    have hstep : fillMissing fb (mk :: rest) d
        = fillMissing fb rest
            (if (dlookup d mk.2).isSome then d else dinsert d mk.2 fb) := rfl
    rw [hstep] at h
    rcases ih _ h with h1 | h1
    · exact Or.inl (by rw [List.map_cons]; exact List.mem_cons_of_mem _ h1)
    · revert h1
      split
      · intro h1; exact Or.inr h1
      · intro h1
        rcases mem_dinsert _ h1 with h2 | h2
        · exact Or.inl (by rw [List.map_cons, h2]; simp)
        · exact Or.inr h2

theorem mem_parseEvalLoop {text : List Char} {all : List (List Char × String)}
    {fb? : Option (List Char)} {x : String × List Char} :
    ∀ (L : List (List Char × String)) (d : List (String × List Char)),
      x ∈ parseEvalLoop text all fb? L d → x.1 ∈ L.map Prod.snd ∨ x ∈ d := by
  intro L
  induction L with
  | nil => intro d h; exact Or.inr h
  | cons mk rest ih =>
    intro d h
    rw [parseEvalLoop_cons] at h
    rcases ih _ h with h1 | h1
    · exact Or.inl (by rw [List.map_cons]; exact List.mem_cons_of_mem _ h1)
    · revert h1
      split
      · intro h1
        rcases mem_dinsert _ h1 with h2 | h2
        · exact Or.inl (by rw [List.map_cons, h2]; simp)
        · exact Or.inr h2
      · cases fb? with
        | some fb =>
          intro h1
          rcases mem_dinsert _ h1 with h2 | h2
          · exact Or.inl (by rw [List.map_cons, h2]; simp)
          · exact Or.inr h2
        | none => intro h1; exact Or.inr h1

theorem keys_splitMarkedSections {text : List Char}
    {markers : List (List Char × String)} {fb : List Char} {x : String × List Char}
    (h : x ∈ splitMarkedSections text markers fb) : x.1 ∈ markers.map Prod.snd := by
  rcases mem_fillMissing markers _ h with h1 | h1
  · exact h1
  rcases mem_extractLoop _ _ h1 with h2 | h2
  · have h3 : x.1 ∈ (found_markers text markers).map (fun e => e.2.2) :=
      ((sortFound_perm _).map _).mem_iff.mp h2
    exact (foundKeys_sublist text markers).subset h3
  · simp at h2

theorem keys_parse_eval_core {text : List Char} {L : List (List Char × String)}
    {fb? : Option (List Char)} {x : String × List Char}
    (h : x ∈ parse_eval_core text L fb?) : x.1 ∈ L.map Prod.snd := by
  rcases mem_parseEvalLoop L _ h with h1 | h1
  · exact h1
  · simp at h1

/-! ### Missing-marker lookup lemmas -/

theorem key_determines_marker {L : List (List Char × String)} {m m2 : List Char}
    {k : String} (hnd : (L.map Prod.snd).Nodup) (h1 : (m, k) ∈ L)
    (h2 : (m2, k) ∈ L) : m = m2 := by
  induction L with
  | nil => simp at h1
  | cons mk rest ih =>
    rw [List.map_cons] at hnd
    rcases List.mem_cons.mp h1 with e1 | h1r
    · rcases List.mem_cons.mp h2 with e2 | h2r
      · rw [← e1] at e2
        injection e2 with ha hb
        exact ha.symm
      · exfalso
        have hk : mk.2 = k := by rw [← e1]
        exact (List.nodup_cons.mp hnd).1
          (hk ▸ List.mem_map_of_mem Prod.snd h2r)
    · rcases List.mem_cons.mp h2 with e2 | h2r
      · exfalso
        have hk : mk.2 = k := by rw [← e2]
        exact (List.nodup_cons.mp hnd).1
          (hk ▸ List.mem_map_of_mem Prod.snd h1r)
      · exact ih (List.nodup_cons.mp hnd).2 h1r h2r

theorem split_lookup_missing (text : List Char) (markers : List (List Char × String))
    (fb : List Char) (m : List Char) (k : String)
    (hkeys : (markers.map Prod.snd).Nodup)
    (hm : (m, k) ∈ markers) (hf : findIdx m text = none) :
    dlookup (splitMarkedSections text markers fb) k = some fb := by
  have hknot : k ∉ (sortFound (found_markers text markers)).map (fun e => e.2.2) := by
    intro hk
    have hk2 : k ∈ (found_markers text markers).map (fun e => e.2.2) :=
      ((sortFound_perm _).map _).mem_iff.mp hk
    obtain ⟨e, he, heq⟩ := List.mem_map.mp hk2
    obtain ⟨p2, m2, k2⟩ := e
    have hmm := mem_found_markers.mp he
    have hin : (m2, k) ∈ markers := by
      have := hmm.1
      rw [show k2 = k from heq] at this
      exact this
    have hme : m = m2 := key_determines_marker hkeys hm hin
    have hcontr : findIdx m text = some p2 := by rw [hme]; exact hmm.2
    rw [hf] at hcontr
    exact Option.noConfusion hcontr
  have hnone : dlookup (extractLoop text (sortFound (found_markers text markers)) []) k
      = none := by
    rw [dlookup_extractLoop_notmem _ _ hknot]; rfl
  have hdef : splitMarkedSections text markers fb
      = fillMissing fb markers
          (extractLoop text (sortFound (found_markers text markers)) []) := rfl
  rw [hdef, dlookup_fillMissing, hnone]
  have hkin : k ∈ markers.map Prod.snd := List.mem_map_of_mem Prod.snd hm
  simp [hkin]

theorem isPrefixOf_length_le : ∀ (p l : List Char),
    p.isPrefixOf l = true → p.length ≤ l.length := by
  intro p
  induction p with
  | nil => intro l _; simp
  | cons c cs ih =>
    intro l h
    cases l with
    | nil => exact Bool.noConfusion h
    | cons d ds =>
      have h2 : (c == d && cs.isPrefixOf ds) = true := h
      rw [Bool.and_eq_true] at h2
      have := ih ds h2.2
      simp only [List.length_cons]
      omega

/-! ### Duplicate-occurrence gap lemmas -/

theorem nextFoundPos_gt_of_gap {text : List Char} {markers : List (List Char × String)}
    {p q : Nat} {x : List Char}
    (hx : x ≠ []) (hpre : x.isPrefixOf (text.drop q) = true)
    (hgap : ∀ p2 ∈ (found_markers text markers).map (fun e => e.1),
      ¬(p < p2 ∧ p2 ≤ q)) :
    q < nextFoundPos text markers p := by
  unfold nextFoundPos
  cases hfl : (((found_markers text markers).map (fun e => e.1)).filter
      (fun q2 => decide (p < q2))) with
  | nil =>
    show q < text.length
    have hlen := isPrefixOf_length_le x (text.drop q) hpre
    have hxpos : 0 < x.length := List.length_pos.mpr hx
    rw [List.length_drop] at hlen
    omega
  | cons a b =>
    show q < minNat (a :: b)
    have hmem0 : minNat (a :: b) ∈ a :: b := minNat_mem (by simp)
    have hmem : minNat (a :: b) ∈ (((found_markers text markers).map
        (fun e => e.1)).filter (fun q2 => decide (p < q2))) := by
      rw [hfl]; exact hmem0
    rw [List.mem_filter] at hmem
    have hplt : p < minNat (a :: b) := by simpa using hmem.2
    by_cases hle : minNat (a :: b) ≤ q
    · exact absurd ⟨hplt, hle⟩ (hgap _ hmem.1)
    · exact Nat.lt_of_not_le hle

theorem evalBound_gt_of_gap {text : List Char} {L : List (List Char × String)}
    {m : List Char} {p q : Nat} {x : List Char}
    (hx : x ≠ []) (hpre : x.isPrefixOf (text.drop q) = true)
    (hgap : ∀ p2 ∈ (found_markers text L).map (fun e => e.1),
      ¬(p < p2 ∧ p2 ≤ q)) :
    q < evalBoundFrom text L m (p + m.length) := by
  unfold evalBoundFrom
  cases hfl : ((((L.map Prod.fst).filter (fun m2 => !(m2 == m) && occursIn m2 text)).map
      (fun m2 => (findIdx m2 text).getD 0)).filter
        (fun q2 => decide (p + m.length < q2))) with
  | nil =>
    show q < text.length
    have hlen := isPrefixOf_length_le x (text.drop q) hpre
    have hxpos : 0 < x.length := List.length_pos.mpr hx
    rw [List.length_drop] at hlen
    omega
  | cons a b =>
    show q < minNat (a :: b)
    have hmem0 : minNat (a :: b) ∈ a :: b := minNat_mem (by simp)
    have hmem : minNat (a :: b) ∈ ((((L.map Prod.fst).filter
        (fun m2 => !(m2 == m) && occursIn m2 text)).map
          (fun m2 => (findIdx m2 text).getD 0)).filter
            (fun q2 => decide (p + m.length < q2))) := by
      rw [hfl]; exact hmem0
    rw [List.mem_filter] at hmem
    have hplt : p + m.length < minNat (a :: b) := by simpa using hmem.2
    obtain ⟨m2, hm2, hidx⟩ := List.mem_map.mp hmem.1
    rw [List.mem_filter] at hm2
    obtain ⟨hm2mem, hcond⟩ := hm2
    rw [Bool.and_eq_true] at hcond
    have hocc : occursIn m2 text = true := hcond.2
    obtain ⟨p2, hp2⟩ : ∃ p2, findIdx m2 text = some p2 := by
      cases hfi : findIdx m2 text with
      | none =>
        unfold occursIn at hocc
        rw [hfi] at hocc
        exact Bool.noConfusion hocc
      | some p3 => exact ⟨p3, rfl⟩
    have hpos2 : (findIdx m2 text).getD 0 = p2 := by rw [hp2]; rfl
    have heqmn : p2 = minNat (a :: b) := by rw [← hpos2, hidx]
    obtain ⟨pr, hpr, hfst⟩ := List.mem_map.mp hm2mem
    have hfnd : (p2, pr.1, pr.2) ∈ found_markers text L :=
      mem_found_markers.mpr ⟨by simpa using hpr, by rw [hfst]; exact hp2⟩
    have hposmem : p2 ∈ (found_markers text L).map (fun e => e.1) :=
      List.mem_map_of_mem _ hfnd
    have hgap2 := hgap p2 hposmem
    by_cases hle : p2 ≤ q
    · exact absurd ⟨by omega, hle⟩ hgap2
    · rw [heqmn] at hle
      exact Nat.lt_of_not_le hle

/-! ## Claim theorems -/

/-- C1 counterexample: on the text `"SPELLING EVALUATION:GRAMMAR EVALUATION: hi"`
the next found marker after `SPELLING EVALUATION:` (found at 0) in ascending
first-occurrence order is `GRAMMAR EVALUATION:` at index 20, so the claim
predicts the empty slice `[20,20)` for `spelling`; `parse_evaluation_results`
instead binds `spelling` to everything after index 20, because its boundary
filter requires a next marker to start strictly after the current marker's
end. -/
theorem c1_evalSplitter_ignores_adjacent_marker :
    findIdx "SPELLING EVALUATION:".data
        "SPELLING EVALUATION:GRAMMAR EVALUATION: hi".data = some 0
    ∧ nextFoundPos "SPELLING EVALUATION:GRAMMAR EVALUATION: hi".data
        section_markers 0 = 20
    ∧ dlookup (parse_evaluation_results
        "SPELLING EVALUATION:GRAMMAR EVALUATION: hi".data) "spelling"
        = some "GRAMMAR EVALUATION: hi".data
    ∧ dlookup (parse_evaluation_results
        "SPELLING EVALUATION:GRAMMAR EVALUATION: hi".data) "spelling"
        ≠ some (stripChars (slice "SPELLING EVALUATION:GRAMMAR EVALUATION: hi".data
            (0 + ("SPELLING EVALUATION:".data).length)
            (nextFoundPos "SPELLING EVALUATION:GRAMMAR EVALUATION: hi".data
              section_markers 0))) := by
  refine ⟨by decide, by decide, by decide, by decide⟩

/-- C1 (amended): the corrections splitter maps each found marker to the
trimmed substring from the end of its first occurrence to the start of the
next found marker in ascending first-occurrence order (end of text for the
last one); the evaluation splitter maps it to the trimmed substring ending
at the smallest first occurrence of a *different* present marker strictly
after the end of the current marker (end of text when none); on the
`A:`/`B:`/`C:` example both give `foo`/`bar`/`baz`. -/
theorem c1_section_slices :
    (∀ (text : List Char) (markers : List (List Char × String))
        (fb m : List Char) (k : String) (p : Nat),
        (markers.map Prod.snd).Nodup →
        ((found_markers text markers).map (fun e => e.1)).Nodup →
        (m, k) ∈ markers → findIdx m text = some p →
        dlookup (splitMarkedSections text markers fb) k
          = some (stripChars (slice text (p + m.length)
              (nextFoundPos text markers p))))
    ∧ (∀ (text m : List Char) (k : String) (p : Nat),
        (m, k) ∈ section_markers → findIdx m text = some p →
        dlookup (parse_evaluation_results text) k
          = some (stripChars (slice text (p + m.length)
              (evalBoundFrom text section_markers m (p + m.length)))))
    ∧ dlookup (splitMarkedSections "A: foo B: bar C: baz".data
          [("A:".data, "A"), ("B:".data, "B"), ("C:".data, "C")] "fb".data) "A"
        = some "foo".data
    ∧ dlookup (splitMarkedSections "A: foo B: bar C: baz".data
          [("A:".data, "A"), ("B:".data, "B"), ("C:".data, "C")] "fb".data) "B"
        = some "bar".data
    ∧ dlookup (splitMarkedSections "A: foo B: bar C: baz".data
          [("A:".data, "A"), ("B:".data, "B"), ("C:".data, "C")] "fb".data) "C"
        = some "baz".data :=
  ⟨fun text markers fb m k p h1 h2 h3 h4 =>
      split_lookup_found text markers fb m k p h1 h2 h3 h4,
   fun _text _m _k _p hm hf => eval_lookup_present hm hf,
   by decide, by decide, by decide⟩

/-- Witness for C1: both universally quantified parts applied at concrete
inputs with all hypotheses checked by `decide`. -/
theorem c1_section_slices_witness :
    dlookup (splitMarkedSections "A: foo".data [("A:".data, "A")] "fb".data) "A"
      = some (stripChars (slice "A: foo".data (0 + ("A:".data).length)
          (nextFoundPos "A: foo".data [("A:".data, "A")] 0)))
    ∧ dlookup (parse_evaluation_results "SPELLING EVALUATION: ok".data) "spelling"
      = some (stripChars (slice "SPELLING EVALUATION: ok".data
          (0 + ("SPELLING EVALUATION:".data).length)
          (evalBoundFrom "SPELLING EVALUATION: ok".data section_markers
            "SPELLING EVALUATION:".data
            (0 + ("SPELLING EVALUATION:".data).length)))) :=
  ⟨c1_section_slices.1 "A: foo".data [("A:".data, "A")] "fb".data "A:".data "A" 0
      (by decide) (by decide) (by decide) (by decide),
   c1_section_slices.2.1 "SPELLING EVALUATION: ok".data "SPELLING EVALUATION:".data
      "spelling" 0 (by decide) (by decide)⟩

/-- C2 counterexample: in the tab-6 `parse_evaluation_results` (lines
1323-1350) there is no `else` branch, so a key whose marker is absent is
missing from the result instead of being bound to the fallback string. -/
theorem c2_tab6_missing_key :
    findIdx "GRAMMAR EVALUATION:".data "SPELLING EVALUATION: ok".data = none
    ∧ dlookup (parse_evaluation_results_tab6 "SPELLING EVALUATION: ok".data)
        "grammar" = none := by
  refine ⟨by decide, by decide⟩

/-- C2 (amended): keys with absent markers are bound to the fallback string
by the corrections splitter and by the tab-4 evaluation splitter, while the
tab-6 evaluation splitter leaves them out of the mapping entirely (its
renderer substitutes the fallback text at display time); keys whose markers
do occur are unaffected, as on `"A: foo C: baz"`. -/
theorem c2_missing_marker_fallback :
    (∀ (text : List Char) (markers : List (List Char × String))
        (fb m : List Char) (k : String),
        (markers.map Prod.snd).Nodup →
        (m, k) ∈ markers → findIdx m text = none →
        dlookup (splitMarkedSections text markers fb) k = some fb)
    ∧ (∀ (text m : List Char) (k : String),
        (m, k) ∈ section_markers → findIdx m text = none →
        dlookup (parse_evaluation_results text) k
          = some "No evaluation available for this section.".data)
    ∧ (∀ (text m : List Char) (k : String),
        (m, k) ∈ section_markers → findIdx m text = none →
        dlookup (parse_evaluation_results_tab6 text) k = none)
    ∧ dlookup (splitMarkedSections "A: foo C: baz".data
          [("A:".data, "A"), ("B:".data, "B"), ("C:".data, "C")] "fb".data) "A"
        = some "foo".data
    ∧ dlookup (splitMarkedSections "A: foo C: baz".data
          [("A:".data, "A"), ("B:".data, "B"), ("C:".data, "C")] "fb".data) "B"
        = some "fb".data
    ∧ dlookup (splitMarkedSections "A: foo C: baz".data
          [("A:".data, "A"), ("B:".data, "B"), ("C:".data, "C")] "fb".data) "C"
        = some "baz".data :=
  ⟨fun text markers fb m k h1 h2 h3 =>
      split_lookup_missing text markers fb m k h1 h2 h3,
   fun _text _m _k hm hf => eval_lookup_absent hm hf,
   fun _text _m _k hm hf => eval_tab6_lookup_absent hm hf,
   by decide, by decide, by decide⟩

/-- Witness for C2: the three universally quantified parts applied at
concrete inputs. -/
theorem c2_missing_marker_fallback_witness :
    dlookup (splitMarkedSections "A: foo".data
        [("A:".data, "A"), ("B:".data, "B")] "fb".data) "B" = some "fb".data
    ∧ dlookup (parse_evaluation_results "nothing here".data) "style"
        = some "No evaluation available for this section.".data
    ∧ dlookup (parse_evaluation_results_tab6 "nothing here".data) "overall" = none :=
  ⟨c2_missing_marker_fallback.1 "A: foo".data
      [("A:".data, "A"), ("B:".data, "B")] "fb".data "B:".data "B"
      (by decide) (by decide) (by decide),
   c2_missing_marker_fallback.2.1 "nothing here".data "STYLE EVALUATION:".data
      "style" (by decide) (by decide),
   c2_missing_marker_fallback.2.2.1 "nothing here".data "OVERALL EVALUATION:".data
      "overall" (by decide) (by decide)⟩

/-- C3 counterexample: on `"GRAMMAR EVALUATION:SPELLING EVALUATION: hi"` the
markers occur in the opposite of their declared order, and the next found
marker after `GRAMMAR EVALUATION:` (at 0) by ascending text position starts
at 19, so the claim predicts the empty slice for `grammar`; the evaluation
splitter instead swallows the adjacent marker into the `grammar` slice. -/
theorem c3_eval_out_of_order_adjacent :
    findIdx "GRAMMAR EVALUATION:".data
        "GRAMMAR EVALUATION:SPELLING EVALUATION: hi".data = some 0
    ∧ findIdx "SPELLING EVALUATION:".data
        "GRAMMAR EVALUATION:SPELLING EVALUATION: hi".data = some 19
    ∧ nextFoundPos "GRAMMAR EVALUATION:SPELLING EVALUATION: hi".data
        section_markers 0 = 19
    ∧ dlookup (parse_evaluation_results
        "GRAMMAR EVALUATION:SPELLING EVALUATION: hi".data) "grammar"
        = some "SPELLING EVALUATION: hi".data
    ∧ dlookup (parse_evaluation_results
        "GRAMMAR EVALUATION:SPELLING EVALUATION: hi".data) "grammar"
        ≠ some (stripChars (slice "GRAMMAR EVALUATION:SPELLING EVALUATION: hi".data
            (0 + ("GRAMMAR EVALUATION:".data).length)
            (nextFoundPos "GRAMMAR EVALUATION:SPELLING EVALUATION: hi".data
              section_markers 0))) := by
  refine ⟨by decide, by decide, by decide, by decide, by decide⟩

/-- C3 (amended): both splitters slice by position of first occurrence in
the text rather than by declaration order — the corrections splitter's
output is invariant under permutations of the declared marker list, and
out-of-order texts are split by occurrence order in both splitters — but
the evaluation splitter's slice ends at the earliest *other* found marker
strictly beyond the current marker's end rather than at the next found
marker by ascending position. -/
theorem c3_occurrence_order :
    (∀ (text : List Char) (markers markers2 : List (List Char × String))
        (fb : List Char) (k : String),
        markers.Perm markers2 →
        (markers.map Prod.snd).Nodup →
        ((found_markers text markers).map (fun e => e.1)).Nodup →
        dlookup (splitMarkedSections text markers fb) k
          = dlookup (splitMarkedSections text markers2 fb) k)
    ∧ dlookup (splitMarkedSections "B: x A: y".data
          [("A:".data, "A"), ("B:".data, "B")] "fb".data) "A" = some "y".data
    ∧ dlookup (splitMarkedSections "B: x A: y".data
          [("A:".data, "A"), ("B:".data, "B")] "fb".data) "B" = some "x".data
    ∧ dlookup (parse_evaluation_results
        "GRAMMAR EVALUATION: x SPELLING EVALUATION: y".data) "grammar"
        = some "x".data
    ∧ dlookup (parse_evaluation_results
        "GRAMMAR EVALUATION: x SPELLING EVALUATION: y".data) "spelling"
        = some "y".data := by
  refine ⟨?_, by decide, by decide, by decide, by decide⟩
  intro text markers markers2 fb k hperm hkeys hpos
  have hpermF : (found_markers text markers).Perm (found_markers text markers2) :=
    hperm.filterMap _
  have hS1 : (sortFound (found_markers text markers)).Perm
      (sortFound (found_markers text markers2)) :=
    ((sortFound_perm _).trans hpermF).trans (sortFound_perm _).symm
  have hSpos : ((sortFound (found_markers text markers)).map (fun e => e.1)).Nodup :=
    (((sortFound_perm _).map _).nodup_iff).mpr hpos
  have hSeq : sortFound (found_markers text markers)
      = sortFound (found_markers text markers2) :=
    eq_of_sorted_perm hS1 (pairwise_sortFound _) (pairwise_sortFound _) hSpos
  have hdef1 : splitMarkedSections text markers fb
      = fillMissing fb markers
          (extractLoop text (sortFound (found_markers text markers)) []) := rfl
  have hdef2 : splitMarkedSections text markers2 fb
      = fillMissing fb markers2
          (extractLoop text (sortFound (found_markers text markers2)) []) := rfl
  rw [hdef1, hdef2, dlookup_fillMissing, dlookup_fillMissing, hSeq]
  cases h : dlookup (extractLoop text (sortFound (found_markers text markers2)) []) k with
  | some v => rfl
  | none =>
    by_cases hk : k ∈ markers.map Prod.snd
    · have hk2 : k ∈ markers2.map Prod.snd := (hperm.map Prod.snd).mem_iff.mp hk
      simp [hk, hk2]
    · have hk2 : k ∉ markers2.map Prod.snd := fun hh =>
        hk ((hperm.map Prod.snd).mem_iff.mpr hh)
      simp [hk, hk2]

/-- Witness for C3: the permutation-invariance part applied at a concrete
text and marker lists. -/
theorem c3_occurrence_order_witness :
    dlookup (splitMarkedSections "A: u B: v".data
        [("A:".data, "A"), ("B:".data, "B")] "fb".data) "A"
      = dlookup (splitMarkedSections "A: u B: v".data
        [("B:".data, "B"), ("A:".data, "A")] "fb".data) "A" :=
  c3_occurrence_order.1 "A: u B: v".data
    [("A:".data, "A"), ("B:".data, "B")] [("B:".data, "B"), ("A:".data, "A")]
    "fb".data "A" (by decide) (by decide) (by decide)

/-- C4: in both splitters every section boundary is the first occurrence of
some marker, so the text following a repeated occurrence of a marker stays
inside the slice of the positionally preceding found marker whenever no
first occurrence of another marker lies in between: the slice bound is then
strictly beyond the repeated occurrence. -/
theorem c4_first_occurrence_boundaries :
    (∀ (text : List Char) (markers : List (List Char × String))
        (fb m : List Char) (k : String) (p : Nat) (x : List Char) (kx : String)
        (q p0 : Nat),
        (markers.map Prod.snd).Nodup →
        ((found_markers text markers).map (fun e => e.1)).Nodup →
        (m, k) ∈ markers → findIdx m text = some p →
        (x, kx) ∈ markers → findIdx x text = some p0 →
        x ≠ [] → x.isPrefixOf (text.drop q) = true → p0 < q → p < q →
        (∀ p2 ∈ (found_markers text markers).map (fun e => e.1),
          ¬(p < p2 ∧ p2 ≤ q)) →
        q < nextFoundPos text markers p
        ∧ dlookup (splitMarkedSections text markers fb) k
            = some (stripChars (slice text (p + m.length)
                (nextFoundPos text markers p))))
    ∧ (∀ (text m : List Char) (k : String) (p : Nat) (x : List Char) (kx : String)
        (q p0 : Nat),
        (m, k) ∈ section_markers → findIdx m text = some p →
        (x, kx) ∈ section_markers → findIdx x text = some p0 →
        x ≠ [] → x.isPrefixOf (text.drop q) = true → p0 < q → p < q →
        (∀ p2 ∈ (found_markers text section_markers).map (fun e => e.1),
          ¬(p < p2 ∧ p2 ≤ q)) →
        q < evalBoundFrom text section_markers m (p + m.length)
        ∧ dlookup (parse_evaluation_results text) k
            = some (stripChars (slice text (p + m.length)
                (evalBoundFrom text section_markers m (p + m.length))))) := by
  constructor
  · intro text markers fb m k p x kx q p0 hkeys hpos hm hf hx hfx hxne hpre hp0q hpq hgap
    exact ⟨nextFoundPos_gt_of_gap hxne hpre hgap,
      split_lookup_found text markers fb m k p hkeys hpos hm hf⟩
  · intro text m k p x kx q p0 hm hf hx hfx hxne hpre hp0q hpq hgap
    exact ⟨evalBound_gt_of_gap hxne hpre hgap, eval_lookup_present hm hf⟩

/-- Witness for C4: both parts applied to texts in which the marker occurs
twice and no other marker intervenes; the slice then runs past the repeated
occurrence to the end of the text. -/
theorem c4_first_occurrence_boundaries_witness :
    (24 < nextFoundPos "SPELLING CORRECTIONS: a SPELLING CORRECTIONS: b".data
        sections_to_extract 0
      ∧ dlookup (splitMarkedSections
          "SPELLING CORRECTIONS: a SPELLING CORRECTIONS: b".data
          sections_to_extract "No corrections needed.".data) "spelling"
        = some (stripChars (slice
            "SPELLING CORRECTIONS: a SPELLING CORRECTIONS: b".data
            (0 + ("SPELLING CORRECTIONS:".data).length)
            (nextFoundPos "SPELLING CORRECTIONS: a SPELLING CORRECTIONS: b".data
              sections_to_extract 0))))
    ∧ (23 < evalBoundFrom "SPELLING EVALUATION: a SPELLING EVALUATION: b".data
        section_markers "SPELLING EVALUATION:".data
        (0 + ("SPELLING EVALUATION:".data).length)
      ∧ dlookup (parse_evaluation_results
          "SPELLING EVALUATION: a SPELLING EVALUATION: b".data) "spelling"
        = some (stripChars (slice
            "SPELLING EVALUATION: a SPELLING EVALUATION: b".data
            (0 + ("SPELLING EVALUATION:".data).length)
            (evalBoundFrom "SPELLING EVALUATION: a SPELLING EVALUATION: b".data
              section_markers "SPELLING EVALUATION:".data
              (0 + ("SPELLING EVALUATION:".data).length))))) :=
  ⟨c4_first_occurrence_boundaries.1
      "SPELLING CORRECTIONS: a SPELLING CORRECTIONS: b".data sections_to_extract
      "No corrections needed.".data "SPELLING CORRECTIONS:".data "spelling" 0
      "SPELLING CORRECTIONS:".data "spelling" 24 0
      (by decide) (by decide) (by decide) (by decide) (by decide) (by decide)
      (by decide) (by decide) (by decide) (by decide) (by decide),
   c4_first_occurrence_boundaries.2
      "SPELLING EVALUATION: a SPELLING EVALUATION: b".data
      "SPELLING EVALUATION:".data "spelling" 0
      "SPELLING EVALUATION:".data "spelling" 23 0
      (by decide) (by decide) (by decide) (by decide) (by decide) (by decide)
      (by decide) (by decide) (by decide)⟩

/-- C5 counterexample: on the empty input the tab-6 evaluation splitter
returns the empty mapping, so its keys are not bound to the fallback
string. -/
theorem c5_tab6_empty_is_empty :
    parse_evaluation_results_tab6 "".data = []
    ∧ dlookup (parse_evaluation_results_tab6 "".data) "spelling"
        ≠ some "No evaluation available for this section.".data := by
  refine ⟨by decide, by decide⟩

/-- C5 (amended): on the empty input the corrections splitter and the tab-4
evaluation splitter bind every declared key to the fallback string; the
tab-6 evaluation splitter instead returns the empty mapping. -/
theorem c5_empty_input_all_fallback :
    parse_corrections "".data =
      [("spelling", "No corrections needed.".data),
       ("grammar", "No corrections needed.".data),
       ("coherence", "No corrections needed.".data),
       ("style", "No corrections needed.".data),
       ("order", "No corrections needed.".data),
       ("proposed", "No corrections needed.".data)]
    ∧ parse_evaluation_results "".data =
      [("spelling", "No evaluation available for this section.".data),
       ("grammar", "No evaluation available for this section.".data),
       ("style", "No evaluation available for this section.".data),
       ("coherence", "No evaluation available for this section.".data),
       ("overall", "No evaluation available for this section.".data)]
    ∧ parse_evaluation_results_tab6 "".data = [] := by
  refine ⟨by decide, by decide, by decide⟩

/-- C6: the request-body shape and the response-field extraction are chosen
by case-insensitive substring match on the model id: `claude` selects the
anthropic messages body and the `content[0].text` read, `titan` the
`inputText` body and the `results[0].outputText` read, and an id matching
none of the known families gets the generic `prompt`/`max_tokens` body and
the `generated_text`-then-`completion` lookup with a debug dump of the
whole response as last resort. -/
theorem c6_model_dispatch :
    (∀ (prompt mid : String), hasFamily mid "claude" = true →
        buildBody prompt mid
          = .jobj [("anthropic_version", .jstr "bedrock-2023-05-31"),
                   ("max_tokens", .jnum 2000),
                   ("messages", .jarr [.jobj [("role", .jstr "user"),
                                              ("content", .jstr prompt)]])]
        ∧ ∀ rb, extractResponse mid rb
            = (match jget rb "content" (.jarr [.jobj []]) with
               | .error e => .error e
               | .ok c =>
                 match jindex0 c with
                 | .error e => .error e
                 | .ok el => jget el "text" (.jstr "No content returned")))
    ∧ (∀ (prompt mid : String), hasFamily mid "claude" = false →
        hasFamily mid "titan" = true →
        buildBody prompt mid
          = .jobj [("inputText", .jstr prompt),
                   ("textGenerationConfig",
                    .jobj [("maxTokenCount", .jnum 2000),
                           ("temperature", .jnum (7/10)),
                           ("topP", .jnum (9/10))])]
        ∧ ∀ rb, extractResponse mid rb
            = (match jget rb "results" (.jarr [.jobj []]) with
               | .error e => .error e
               | .ok c =>
                 match jindex0 c with
                 | .error e => .error e
                 | .ok el => jget el "outputText" (.jstr "No content returned")))
    ∧ (∀ (prompt mid : String), hasFamily mid "claude" = false →
        hasFamily mid "titan" = false → hasFamily mid "llama" = false →
        buildBody prompt mid
          = .jobj [("prompt", .jstr prompt), ("max_tokens", .jnum 2000)]
        ∧ ∀ fields, extractResponse mid (.jobj fields)
            = (match dlookup fields "generated_text" with
               | some v => .ok v
               | none =>
                 match dlookup fields "completion" with
                 | some v => .ok v
                 | none => .ok (.jstr ("Response received but format unknown: "
                     ++ jdump (.jobj fields)))))
    ∧ extractResponse "anthropic.claude-3"
        (.jobj [("content", .jarr [.jobj [("text", .jstr "hello")]])])
        = .ok (.jstr "hello")
    ∧ extractResponse "amazon.titan-text-express"
        (.jobj [("results", .jarr [.jobj [("outputText", .jstr "out")]])])
        = .ok (.jstr "out") := by
  refine ⟨fun prompt mid h1 => ⟨?_, fun rb => ?_⟩,
    fun prompt mid h1 h2 => ⟨?_, fun rb => ?_⟩,
    fun prompt mid h1 h2 h3 => ⟨?_, fun fields => ?_⟩, ?_, ?_⟩
  · simp [buildBody, h1]
  · simp [extractResponse, h1]
  · simp [buildBody, h1, h2]
  · simp [extractResponse, h1, h2]
  · simp [buildBody, h1, h2, h3]
  · simp [extractResponse, h1, h2]
  · rfl
  · rfl

/-- Witness for C6: the three request-body parts applied at concrete model
ids of each family. -/
theorem c6_model_dispatch_witness :
    buildBody "p" "anthropic.claude-v2"
      = .jobj [("anthropic_version", .jstr "bedrock-2023-05-31"),
               ("max_tokens", .jnum 2000),
               ("messages", .jarr [.jobj [("role", .jstr "user"),
                                          ("content", .jstr "p")]])]
    ∧ buildBody "p" "amazon.titan-lite"
      = .jobj [("inputText", .jstr "p"),
               ("textGenerationConfig",
                .jobj [("maxTokenCount", .jnum 2000),
                       ("temperature", .jnum (7/10)),
                       ("topP", .jnum (9/10))])]
    ∧ buildBody "p" "mistral.mixtral-8x7b"
      = .jobj [("prompt", .jstr "p"), ("max_tokens", .jnum 2000)] :=
  ⟨(c6_model_dispatch.1 "p" "anthropic.claude-v2" (by rfl)).1,
   (c6_model_dispatch.2.1 "p" "amazon.titan-lite" (by rfl) (by rfl)).1,
   (c6_model_dispatch.2.2.1 "p" "mistral.mixtral-8x7b"
      (by rfl) (by rfl) (by rfl)).1⟩

/-- C7 counterexample: when the parsed response carries a non-string JSON
value in the extracted field, the Python code returns it unconverted — the
call does not return a string (and no exception is raised that would turn
it into a diagnostic). -/
theorem c7_nonstring_escape :
    call_bedrock_model true "p" (some "claude-v1")
        (fun _ => .ok (.jobj [("content", .jarr [.jobj [("text", .jnum 42)]])]))
      = .jnum 42
    ∧ isJStr (call_bedrock_model true "p" (some "claude-v1")
        (fun _ => .ok (.jobj [("content", .jarr [.jobj [("text", .jnum 42)]])])))
      = false :=
  ⟨rfl, rfl⟩

/-- C7 (amended): the call adapter is total and every failure path — guard,
raised exception in the invoke/parse pipeline, or raised exception during
field extraction — returns a diagnostic string; the only non-string result
is the raw extracted response field of a successfully parsed response,
which is returned as-is. -/
theorem c7_no_exception_escapes :
    ∀ (available : Bool) (prompt : String) (model_id : Option String)
      (invoke : JVal → Except String JVal),
      (∃ s, call_bedrock_model available prompt model_id invoke = .jstr s)
      ∨ (∃ rb, invoke (buildBody prompt (model_id.getD "")) = .ok rb
          ∧ extractResponse (model_id.getD "") rb
              = .ok (call_bedrock_model available prompt model_id invoke)) := by
  intro available prompt model_id invoke
  unfold call_bedrock_model
  split
  · exact Or.inl ⟨bedrockWarning, rfl⟩
  · cases hinv : invoke (buildBody prompt (model_id.getD "")) with
    | error e => exact Or.inl ⟨modelErrorMsg e, rfl⟩
    | ok rb =>
      cases hx : extractResponse (model_id.getD "") rb with
      | ok v =>
        refine Or.inr ⟨rb, rfl, ?_⟩
        show extractResponse (model_id.getD "") rb
            = .ok (match extractResponse (model_id.getD "") rb with
                   | .ok v => v
                   | .error e => .jstr (modelErrorMsg e))
        rw [hx]
      | error e =>
        refine Or.inl ⟨modelErrorMsg e, ?_⟩
        show (match extractResponse (model_id.getD "") rb with
              | .ok v => v
              | .error e => .jstr (modelErrorMsg e)) = .jstr (modelErrorMsg e)
        rw [hx]

/-- C8: every key in any mapping produced by the splitters comes from that
splitter's fixed declared key set. -/
theorem c8_keys_fixed_set :
    (∀ (text : List Char) (x : String × List Char), x ∈ parse_corrections text →
        x.1 ∈ ["spelling", "grammar", "coherence", "style", "order", "proposed"])
    ∧ (∀ (text : List Char) (x : String × List Char),
        x ∈ parse_evaluation_results text →
        x.1 ∈ ["spelling", "grammar", "style", "coherence", "overall"])
    ∧ (∀ (text : List Char) (x : String × List Char),
        x ∈ parse_evaluation_results_tab6 text →
        x.1 ∈ ["spelling", "grammar", "style", "coherence", "overall"]) := by
  refine ⟨?_, ?_, ?_⟩
  · intro text x hx
    have hx2 : x ∈ splitMarkedSections text sections_to_extract
        "No corrections needed.".data := hx
    have := keys_splitMarkedSections hx2
    simpa [sections_to_extract] using this
  · intro text x hx
    have hx2 : x ∈ parse_eval_core text section_markers
        (some "No evaluation available for this section.".data) := hx
    have := keys_parse_eval_core hx2
    simpa [section_markers] using this
  · intro text x hx
    have hx2 : x ∈ parse_eval_core text section_markers none := hx
    have := keys_parse_eval_core hx2
    simpa [section_markers] using this

/-- Witness for C8: concrete entries of concrete splitter outputs have keys
in the fixed sets. -/
theorem c8_keys_fixed_set_witness :
    ("spelling", "No corrections needed.".data).1
      ∈ ["spelling", "grammar", "coherence", "style", "order", "proposed"]
    ∧ ("overall", "No evaluation available for this section.".data).1
      ∈ ["spelling", "grammar", "style", "coherence", "overall"] :=
  ⟨c8_keys_fixed_set.1 "".data ("spelling", "No corrections needed.".data)
      (by decide),
   c8_keys_fixed_set.2.1 "".data
      ("overall", "No evaluation available for this section.".data) (by decide)⟩

/-- C9: when the runtime client is unavailable or the model id is `None` or
empty, the adapter returns the fixed warning string, for every prompt and
every behavior of the external invoke pipeline (so nothing is invoked and
no request body matters). -/
theorem c9_unavailable_guard :
    ∀ (available : Bool) (prompt : String) (model_id : Option String)
      (invoke : JVal → Except String JVal),
      available = false ∨ model_id = none ∨ model_id = some "" →
      call_bedrock_model available prompt model_id invoke = .jstr bedrockWarning := by
  intro available prompt model_id invoke h
  rcases h with h | h | h <;> simp [call_bedrock_model, h]

/-- Witness for C9: the guard applied with an unavailable client, a real
model id and an invoke function that would fail loudly if consulted. -/
theorem c9_unavailable_guard_witness :
    call_bedrock_model false "p" (some "anthropic.claude-v2")
        (fun _ => .error "boom") = .jstr bedrockWarning :=
  c9_unavailable_guard false "p" (some "anthropic.claude-v2")
    (fun _ => .error "boom") (Or.inl rfl)

/-- C10: every one of the four request-body shapes carries a generation cap
of exactly 2000 tokens, in the family-specific field (`max_tokens`,
`textGenerationConfig.maxTokenCount`, `max_gen_len`, `max_tokens`). -/
theorem c10_max_tokens_cap :
    ∀ (prompt mid : String),
      (hasFamily mid "claude" = true →
        dlookup (bodyFields (buildBody prompt mid)) "max_tokens"
          = some (.jnum 2000))
      ∧ (hasFamily mid "claude" = false → hasFamily mid "titan" = true →
        ∃ g, dlookup (bodyFields (buildBody prompt mid)) "textGenerationConfig"
            = some (.jobj g)
          ∧ dlookup g "maxTokenCount" = some (.jnum 2000))
      ∧ (hasFamily mid "claude" = false → hasFamily mid "titan" = false →
          hasFamily mid "llama" = true →
        dlookup (bodyFields (buildBody prompt mid)) "max_gen_len"
          = some (.jnum 2000))
      ∧ (hasFamily mid "claude" = false → hasFamily mid "titan" = false →
          hasFamily mid "llama" = false →
        dlookup (bodyFields (buildBody prompt mid)) "max_tokens"
          = some (.jnum 2000)) := by
  intro prompt mid
  refine ⟨fun h1 => ?_, fun h1 h2 => ?_, fun h1 h2 h3 => ?_, fun h1 h2 h3 => ?_⟩
  · have hb : buildBody prompt mid
        = .jobj [("anthropic_version", .jstr "bedrock-2023-05-31"),
                 ("max_tokens", .jnum 2000),
                 ("messages", .jarr [.jobj [("role", .jstr "user"),
                                            ("content", .jstr prompt)]])] := by
      simp [buildBody, h1]
    rw [hb]; rfl
  · refine ⟨[("maxTokenCount", .jnum 2000), ("temperature", .jnum (7/10)),
      ("topP", .jnum (9/10))], ?_, rfl⟩
    have hb : buildBody prompt mid
        = .jobj [("inputText", .jstr prompt),
                 ("textGenerationConfig",
                  .jobj [("maxTokenCount", .jnum 2000),
                         ("temperature", .jnum (7/10)),
                         ("topP", .jnum (9/10))])] := by
      simp [buildBody, h1, h2]
    rw [hb]; rfl
  · have hb : buildBody prompt mid
        = .jobj [("prompt", .jstr prompt),
                 ("max_gen_len", .jnum 2000),
                 ("temperature", .jnum (7/10)),
                 ("top_p", .jnum (9/10))] := by
      simp [buildBody, h1, h2, h3]
    rw [hb]; rfl
  · have hb : buildBody prompt mid
        = .jobj [("prompt", .jstr prompt), ("max_tokens", .jnum 2000)] := by
      simp [buildBody, h1, h2, h3]
    rw [hb]; rfl

/-- Witness for C10: all four cap clauses applied at concrete model ids. -/
theorem c10_max_tokens_cap_witness :
    dlookup (bodyFields (buildBody "p" "anthropic.claude-3")) "max_tokens"
      = some (.jnum 2000)
    ∧ (∃ g, dlookup (bodyFields (buildBody "p" "amazon.titan-x"))
          "textGenerationConfig" = some (.jobj g)
        ∧ dlookup g "maxTokenCount" = some (.jnum 2000))
    ∧ dlookup (bodyFields (buildBody "p" "meta.llama3-8b")) "max_gen_len"
      = some (.jnum 2000)
    ∧ dlookup (bodyFields (buildBody "p" "mistral.large")) "max_tokens"
      = some (.jnum 2000) :=
  ⟨(c10_max_tokens_cap "p" "anthropic.claude-3").1 (by rfl),
   (c10_max_tokens_cap "p" "amazon.titan-x").2.1 (by rfl) (by rfl),
   (c10_max_tokens_cap "p" "meta.llama3-8b").2.2.1 (by rfl) (by rfl) (by rfl),
   (c10_max_tokens_cap "p" "mistral.large").2.2.2 (by rfl) (by rfl) (by rfl)⟩

end Model13p
